import Mathlib

/-!
Shallow embedding of the member-fetching helpers of `src/helpers/guild.ts`
(discordeno): the gateway-path `fetchMembers`, the REST fallback `getMembers`
with its cursor-pagination loop, and `getMembersByQuery`.  The gateway variant
in `src/unnamed/part_000` has the same validation and normalization logic and
is covered by the same embedding.
-/

namespace Discordeno

/-- JS logical AND on numbers: `a && b` evaluates to `a` when `a` is falsy
(for numbers: zero) and to `b` otherwise.  The source tests
`identifyPayload.intents && Intents.GUILD_MEMBERS` with this operator
(not the bitwise `&`). -/
def jsAnd (a b : Nat) : Nat := if a = 0 then 0 else b

/-- Modelled from the spec: the privileged "guild members" capability bit
(`Intents.GUILD_MEMBERS` from `types/mod.ts`, a file that is not part of the
excerpt).  It is the gateway intent bit `1 <<< 1`; for the theorems below only
the fact that it is nonzero matters. -/
def Intents.GUILD_MEMBERS : Nat := 2

/-- Error kinds thrown by the member-fetch helpers (`Errors` in
`types/misc/errors.ts`), restricted to the ones these helpers use. -/
inductive Errors where
  | MISSING_INTENT_GUILD_MEMBERS
  | GUILD_NOT_FOUND
  deriving DecidableEq

/-- Options accepted by the gateway-path `fetchMembers`
(`FetchMembersOptions` in `types/mod.ts`).  `limit = none` models an absent
`limit` field; `userIDs = []` models an absent or empty `userIDs` array —
both are falsy in the source's guards, which is all the source inspects. -/
structure FetchMembersOptions where
  limit : Option Nat
  userIDs : List Nat
  query : Option String
  deriving DecidableEq

/-- The value of the JS expression `options?.limit`: `none` when either the
options object or its `limit` field is absent. -/
def jsLimit (options : Option FetchMembersOptions) : Option Nat :=
  options.bind FetchMembersOptions.limit

/-- The guard `!options?.limit || options.limit > 1` of `fetchMembers`
(guild.ts line 550): true when the caller-supplied limit is absent, `0`, or
greater than `1` — false exactly when the caller-supplied limit is `1`. -/
def limitGuard (options : Option FetchMembersOptions) : Bool :=
  (jsLimit options).getD 0 == 0 || decide (1 < (jsLimit options).getD 0)

/-- The `userIDs` override of `fetchMembers` (guild.ts lines 556-558):
`if (options?.userIDs?.length) options.limit = options.userIDs.length`.
The result is the options object handed to `requestAllMembers`. -/
def normalizeOptions : Option FetchMembersOptions → Option FetchMembersOptions
  | none => none
  | some o =>
    if o.userIDs.length != 0 then some ⟨some o.userIDs.length, o.userIDs, o.query⟩
    else some o

/-- Gateway-path `fetchMembers` (guild.ts lines 547-563).  `intents` is
`identifyPayload.intents`.  An `.ok` result carries the options object passed
on to `requestAllMembers` (the promise resolution itself is handled by the
shard manager, outside this excerpt); `.error` models the synchronous throw,
which happens before `requestAllMembers` is reached. -/
def fetchMembers (intents : Nat) (options : Option FetchMembersOptions) :
    Except Errors (Option FetchMembersOptions) :=
  if limitGuard options && (jsAnd intents Intents.GUILD_MEMBERS == 0) then
    .error .MISSING_INTENT_GUILD_MEMBERS
  else
    .ok (normalizeOptions options)

/-- A member entity as far as these helpers inspect it: the source only ever
reads `member.id` (first component); the second component stands for the rest
of the payload, so that distinct structs with equal ids can be told apart. -/
abbrev Member := Nat × Nat

/-- The REST collaborator: given the `limit` query parameter and the optional
`after` cursor of one page request, the member payloads returned (the
composite of `RequestManager.get` and `structures.createMemberStruct`). -/
abbrev Oracle := Nat → Option Nat → List Member

/-- The returned mapping: id-keyed, insertion ordered. -/
abbrev Collection := List (Nat × Member)

/-- Does the collection already contain an entry for key `k`? -/
def hasKey (c : Collection) (k : Nat) : Bool := c.any (fun e => e.1 == k)

/-- Modelled from the spec: `Collection.set` from `util/collection.ts`, which
is not part of the excerpt.  The spec prescribes a merge that is
"first-write-wins per id, preserving page arrival order", so setting an
already-present key leaves the collection unchanged and a new key is appended
at the end. -/
def collSet (c : Collection) (k : Nat) (v : Member) : Collection :=
  if hasKey c k then c else c ++ [(k, v)]

/-- Lookup in the returned mapping. -/
def collGet (c : Collection) (k : Nat) : Option Member :=
  (c.find? (fun e => e.1 == k)).map Prod.snd

/-- `Collection.size` (`members.size` in the loop guard). -/
def collSize (c : Collection) : Nat := c.length

/-- `memberStructures.forEach((member) => members.set(member.id, member))`
(guild.ts line 620). -/
def mergePage (c : Collection) (page : List Member) : Collection :=
  page.foldl (fun acc m => collSet acc m.1 m) c

/-- The `limit` query parameter of one page request:
`membersLeft > 1000 ? 1000 : membersLeft` (guild.ts line 601). -/
def pageLimit (left : Nat) : Nat := if 1000 < left then 1000 else left

/-- One page request as sent to the REST endpoint: the `limit` query parameter
and the optional `after` cursor. -/
structure PageReq where
  limit : Nat
  after : Option Nat
  deriving DecidableEq

/-- One iteration of the pagination loop of `getMembers`: the request sent,
the page received, the accumulated size and the remaining-to-fetch counter
when the request was issued, and the state of this call's cache writes at the
moment the page was merged into the returned mapping (all of the page's
members are cached — `await Promise.all(...)` — before the merge runs). -/
structure Iter where
  req : PageReq
  page : List Member
  sizeBefore : Nat
  leftBefore : Nat
  cacheAtMerge : List Member
  deriving DecidableEq

/-- The pagination loop of `getMembers` (guild.ts lines 583-630).
`target` is the constant `options?.limit ?? guild.memberCount`, `left` is
`membersLeft`, `after` the current cursor, `cache` the log of
`cacheHandlers.set("members", ...)` writes made by this call so far, and
`coll` the accumulated mapping.  Returns the iteration log, the final
mapping, and the final value of `membersLeft`. -/
def go (oracle : Oracle) (target left : Nat) (after : Option Nat)
    (cache : List Member) (coll : Collection) : List Iter × Collection × Nat :=
  if h : collSize coll < target ∧ 0 < left then
    match oracle (pageLimit left) after with
    | [] => ([⟨⟨pageLimit left, after⟩, [], collSize coll, left, cache⟩], coll, left)
    | m :: rest =>
      let res := go oracle target (left - 1000)
        (some (((m :: rest).getLast (List.cons_ne_nil m rest)).1))
        (cache ++ (m :: rest)) (mergePage coll (m :: rest))
      (⟨⟨pageLimit left, after⟩, m :: rest, collSize coll, left,
          cache ++ (m :: rest)⟩ :: res.1,
        res.2)
  else ([], coll, left)
termination_by left
decreasing_by exact Nat.sub_lt h.2 (by decide)

/-- The slice of a cached guild that `getMembers` reads. -/
structure Guild where
  memberCount : Nat
  deriving DecidableEq

/-- Options of the REST fallback `getMembers` (`GetMemberOptions`).  The
`force` field is modelled from the spec ("unless a `force` flag is set"); the
body of `getMembers` never reads it. -/
structure GetMemberOptions where
  limit : Option Nat
  after : Option Nat
  force : Bool
  deriving DecidableEq

/-- REST fallback `getMembers` (guild.ts lines 573-633).  `intents` is
`identifyPayload.intents` and `guild` is the result of
`cacheHandlers.get("guilds", guildID)`.  Returns the iteration log of the
pagination loop (empty when the function throws before the loop) together
with the thrown error or the returned mapping. -/
def getMembers (intents : Nat) (guild : Option Guild)
    (options : Option GetMemberOptions) (oracle : Oracle) :
    List Iter × Except Errors Collection :=
  if jsAnd intents Intents.GUILD_MEMBERS == 0 then
    ([], .error .MISSING_INTENT_GUILD_MEMBERS)
  else
    match guild with
    | none => ([], .error .GUILD_NOT_FOUND)
    | some g =>
      let target := (options.bind GetMemberOptions.limit).getD g.memberCount
      let r := go oracle target target (options.bind GetMemberOptions.after) [] []
      (r.1, .ok r.2.1)

/-- The request that `getMembersByQuery` hands to `requestAllMembers`. -/
structure QueryRequest where
  guild : Guild
  query : String
  limit : Nat

/-- `getMembersByQuery` (guild.ts lines 302-313).  `guild` is the result of
`cacheHandlers.get("guilds", guildID)`.  An absent guild makes the function
return `undefined` (here `.ok none`): no throw, no gateway request.  A present
guild yields the request passed to `requestAllMembers`. -/
def getMembersByQuery (guild : Option Guild) (name : String) (limit : Nat) :
    Except Errors (Option QueryRequest) :=
  match guild with
  | none => .ok none
  | some g => .ok (some ⟨g, name, limit⟩)

/-- The ids of a page of members. -/
def idsOf (page : List Member) : List Nat := page.map Prod.fst

/-- Does iteration `b`'s request carry an `after` cursor equal to the highest
id of iteration `a`'s page? -/
def followsMaxB (a b : Iter) : Bool :=
  match b.req.after with
  | some m => (idsOf a.page).contains m && (idsOf a.page).all (fun x => decide (x ≤ m))
  | none => false

/-- Did the final iteration of the log receive an empty page? -/
def lastPageEmptyB (tr : List Iter) : Bool :=
  match tr.getLast? with
  | some it => it.page.isEmpty
  | none => false

/-- A REST collaborator that answers every page request in full, with members
whose ids continue in ascending order from the cursor. -/
def seqOracle : Oracle := fun l a => (List.range' (a.getD 0 + 1) l).map (fun i => (i, 0))

/-- The page that `seqOracle` returns for a request of `l` members after
cursor id `c` (and after no cursor when `c = 0`): ids `c+1 ... c+l`. -/
def pageOf (c l : Nat) : List Member :=
  (List.range' (c + 1) l).map (fun i => (i, 0))

/-- The mapping accumulated from consecutive full pages: entries for ids
`s ... s+n-1` in ascending order. -/
def rangeColl (s n : Nat) : Collection :=
  (List.range' s n).map (fun i => (i, (i, 0)))

deriving instance DecidableEq for Except

/-- Every page request asks for at most 1000 members. -/
theorem pageLimit_le (left : Nat) : pageLimit left ≤ 1000 := by
  unfold pageLimit
  split <;> omega

/-- Unfolding of the loop when the guard fails: no request is issued. -/
theorem go_stop (oracle : Oracle) (target left : Nat) (after : Option Nat)
    (cache : List Member) (coll : Collection)
    (h : ¬(collSize coll < target ∧ 0 < left)) :
    go oracle target left after cache coll = ([], coll, left) := by
  rw [go]
  exact dif_neg h

/-- Unfolding of the loop when the guard holds and the page comes back empty:
the loop records the request and breaks. -/
theorem go_page_empty (oracle : Oracle) (target left : Nat) (after : Option Nat)
    (cache : List Member) (coll : Collection)
    (h : collSize coll < target ∧ 0 < left)
    (hp : oracle (pageLimit left) after = []) :
    go oracle target left after cache coll =
      ([⟨⟨pageLimit left, after⟩, [], collSize coll, left, cache⟩], coll, left) := by
  rw [go, dif_pos h, hp]

/-- Unfolding of the loop when the guard holds and the page is non-empty: the
page is cached and merged, the cursor moves to the last returned member's id,
and the loop recurses with 1000 subtracted from the remaining counter. -/
theorem go_page_cons (oracle : Oracle) (target left : Nat) (after : Option Nat)
    (cache : List Member) (coll : Collection)
    (h1 : collSize coll < target) (h2 : 0 < left)
    (page : List Member) (hp : oracle (pageLimit left) after = page) (hne : page ≠ []) :
    go oracle target left after cache coll =
      (⟨⟨pageLimit left, after⟩, page, collSize coll, left, cache ++ page⟩ ::
          (go oracle target (left - 1000) (some ((page.getLast hne).1))
            (cache ++ page) (mergePage coll page)).1,
        (go oracle target (left - 1000) (some ((page.getLast hne).1))
            (cache ++ page) (mergePage coll page)).2) := by
  match page, hne with
  | m :: rest, _ =>
    rw [go, dif_pos ⟨h1, h2⟩, hp]

/-- Every request in the iteration log was issued while the accumulated size
was still below the target and the remaining counter still positive, and
asked for at most 1000 members. -/
theorem go_req_bounds (oracle : Oracle) (target : Nat) :
    ∀ (left : Nat) (after : Option Nat) (cache : List Member) (coll : Collection),
      ∀ it ∈ (go oracle target left after cache coll).1,
        it.req.limit ≤ 1000 ∧ it.sizeBefore < target ∧ 0 < it.leftBefore := by
  intro left
  induction left using Nat.strong_induction_on with
  | _ left ih =>
    intro after cache coll it hit
    by_cases hg : collSize coll < target ∧ 0 < left
    · rcases hp : oracle (pageLimit left) after with _ | ⟨m, rest⟩
      · rw [go_page_empty oracle target left after cache coll hg hp] at hit
        rw [List.mem_singleton] at hit
        subst hit
        exact ⟨pageLimit_le left, hg.1, hg.2⟩
      · rw [go_page_cons oracle target left after cache coll hg.1 hg.2
            (m :: rest) hp (List.cons_ne_nil m rest)] at hit
        rcases List.mem_cons.mp hit with h0 | h1
        · subst h0
          exact ⟨pageLimit_le left, hg.1, hg.2⟩
        · exact ih (left - 1000) (Nat.sub_lt hg.2 (by decide)) _ _ _ it h1
    · rw [go_stop oracle target left after cache coll hg] at hit
      cases hit

/-- Every iteration except possibly the last received a non-empty page: the
loop never continues past an empty page. -/
theorem go_dropLast_nonempty (oracle : Oracle) (target : Nat) :
    ∀ (left : Nat) (after : Option Nat) (cache : List Member) (coll : Collection),
      ∀ it ∈ ((go oracle target left after cache coll).1).dropLast, it.page ≠ [] := by
  intro left
  induction left using Nat.strong_induction_on with
  | _ left ih =>
    intro after cache coll it hit
    by_cases hg : collSize coll < target ∧ 0 < left
    · rcases hp : oracle (pageLimit left) after with _ | ⟨m, rest⟩
      · rw [go_page_empty oracle target left after cache coll hg hp] at hit
        cases hit
      · rw [go_page_cons oracle target left after cache coll hg.1 hg.2
            (m :: rest) hp (List.cons_ne_nil m rest)] at hit
        rcases htr : (go oracle target (left - 1000)
            (some (((m :: rest).getLast (List.cons_ne_nil m rest)).1))
            (cache ++ (m :: rest)) (mergePage coll (m :: rest))).1 with _ | ⟨b, tr2⟩
        · rw [htr] at hit
          cases hit
        · rw [htr] at hit
          rw [List.dropLast_cons₂] at hit
          rcases List.mem_cons.mp hit with h0 | h1
          · subst h0
            exact List.cons_ne_nil m rest
          · exact ih (left - 1000) (Nat.sub_lt hg.2 (by decide))
              (some (((m :: rest).getLast (List.cons_ne_nil m rest)).1))
              (cache ++ (m :: rest)) (mergePage coll (m :: rest)) it
              (by rw [htr]; exact h1)
    · rw [go_stop oracle target left after cache coll hg] at hit
      cases hit

/-- When the loop finishes, one of the three stop conditions holds: the
accumulated count has reached the target, the remaining counter has dropped
to zero, or the final request returned an empty page. -/
theorem go_exit (oracle : Oracle) (target : Nat) :
    ∀ (left : Nat) (after : Option Nat) (cache : List Member) (coll : Collection),
      target ≤ collSize (go oracle target left after cache coll).2.1
      ∨ (go oracle target left after cache coll).2.2 = 0
      ∨ lastPageEmptyB (go oracle target left after cache coll).1 = true := by
  intro left
  induction left using Nat.strong_induction_on with
  | _ left ih =>
    intro after cache coll
    by_cases hg : collSize coll < target ∧ 0 < left
    · rcases hp : oracle (pageLimit left) after with _ | ⟨m, rest⟩
      · rw [go_page_empty oracle target left after cache coll hg hp]
        right; right
        rfl
      · rw [go_page_cons oracle target left after cache coll hg.1 hg.2
            (m :: rest) hp (List.cons_ne_nil m rest)]
        rcases ih (left - 1000) (Nat.sub_lt hg.2 (by decide))
            (some (((m :: rest).getLast (List.cons_ne_nil m rest)).1))
            (cache ++ (m :: rest)) (mergePage coll (m :: rest)) with h | h | h
        · exact Or.inl h
        · exact Or.inr (Or.inl h)
        · right; right
          rcases htr : (go oracle target (left - 1000)
              (some (((m :: rest).getLast (List.cons_ne_nil m rest)).1))
              (cache ++ (m :: rest)) (mergePage coll (m :: rest))).1 with _ | ⟨b, tr2⟩
          · rw [htr] at h
            cases h
          · rw [htr] at h
            rw [lastPageEmptyB, List.getLast?_cons_cons]
            rw [lastPageEmptyB] at h
            exact h
    · rw [go_stop oracle target left after cache coll hg]
      rw [not_and_or] at hg
      rcases hg with hg | hg
      · exact Or.inl (Nat.le_of_not_lt hg)
      · exact Or.inr (Or.inl (Nat.eq_zero_of_not_pos hg))

/-- C5.  For every execution of the pagination loop of the REST fallback
`getMembers`: each page request asks for at most 1000 members; a request is
only issued while the accumulated count is below the target
(`options?.limit ?? guild.memberCount`) and the remaining counter is
positive; the loop never continues past an empty page; and at exit the target
has been reached, the remaining counter has dropped to zero, or the final
page was empty — i.e. the loop terminates exactly at the first of the three
stop conditions. -/
theorem getMembers_pagination_termination (oracle : Oracle) (target left : Nat)
    (after : Option Nat) (cache : List Member) (coll : Collection)
    (tr : List Iter) (fc : Collection) (fl : Nat)
    (h : go oracle target left after cache coll = (tr, fc, fl)) :
    (∀ it ∈ tr, it.req.limit ≤ 1000 ∧ it.sizeBefore < target ∧ 0 < it.leftBefore)
    ∧ (∀ it ∈ tr.dropLast, it.page ≠ [])
    ∧ (target ≤ collSize fc ∨ fl = 0 ∨ lastPageEmptyB tr = true) := by
  have e1 : (go oracle target left after cache coll).1 = tr := by rw [h]
  have e2 : (go oracle target left after cache coll).2.1 = fc := by rw [h]
  have e3 : (go oracle target left after cache coll).2.2 = fl := by rw [h]
  refine ⟨?_, ?_, ?_⟩
  · rw [← e1]
    exact go_req_bounds oracle target left after cache coll
  · rw [← e1]
    exact go_dropLast_nonempty oracle target left after cache coll
  · rw [← e1, ← e2, ← e3]
    exact go_exit oracle target left after cache coll

/-- Witness for C5: a one-iteration run against a collaborator that returns
an empty page. -/
theorem getMembers_pagination_termination_witness :
    (go (fun _ _ => []) 1 1 none [] [] = ([⟨⟨1, none⟩, [], 0, 1, []⟩], [], 1))
    ∧ ((∀ it ∈ [(⟨⟨1, none⟩, [], 0, 1, []⟩ : Iter)],
          it.req.limit ≤ 1000 ∧ it.sizeBefore < 1 ∧ 0 < it.leftBefore)
      ∧ (∀ it ∈ ([(⟨⟨1, none⟩, [], 0, 1, []⟩ : Iter)]).dropLast, it.page ≠ [])
      ∧ ((1 : Nat) ≤ collSize [] ∨ (1 : Nat) = 0
          ∨ lastPageEmptyB [⟨⟨1, none⟩, [], 0, 1, []⟩] = true)) :=
  have e : go (fun _ _ => []) 1 1 none [] [] = ([⟨⟨1, none⟩, [], 0, 1, []⟩], [], 1) :=
    go_page_empty (fun _ _ => []) 1 1 none [] [] ⟨by decide, by decide⟩ rfl
  ⟨e, getMembers_pagination_termination (fun _ _ => []) 1 1 none [] [] _ _ _ e⟩

/-- Every member of a page is already present in the call's cache-write log at
the moment the page is merged into the returned mapping: the
`cacheHandlers.set` writes (awaited via `Promise.all`) precede the
`members.set` merge. -/
theorem go_cache_before_merge (oracle : Oracle) (target : Nat) :
    ∀ (left : Nat) (after : Option Nat) (cache : List Member) (coll : Collection),
      ∀ it ∈ (go oracle target left after cache coll).1,
        ∀ m ∈ it.page, m ∈ it.cacheAtMerge := by
  intro left
  induction left using Nat.strong_induction_on with
  | _ left ih =>
    intro after cache coll it hit
    by_cases hg : collSize coll < target ∧ 0 < left
    · rcases hp : oracle (pageLimit left) after with _ | ⟨m, rest⟩
      · rw [go_page_empty oracle target left after cache coll hg hp] at hit
        rw [List.mem_singleton] at hit
        subst hit
        intro m hm
        cases hm
      · rw [go_page_cons oracle target left after cache coll hg.1 hg.2
            (m :: rest) hp (List.cons_ne_nil m rest)] at hit
        rcases List.mem_cons.mp hit with h0 | h1
        · subst h0
          intro x hx
          exact List.mem_append_right cache hx
        · exact ih (left - 1000) (Nat.sub_lt hg.2 (by decide)) _ _ _ it h1
    · rw [go_stop oracle target left after cache coll hg] at hit
      cases hit

/-- An entry already present in the accumulated mapping survives any later
page merge untouched: `collSet` ignores a key that is already present. -/
theorem collGet_mergePage :
    ∀ (page : List Member) (c : Collection) (k : Nat) (v : Member),
      collGet c k = some v → collGet (mergePage c page) k = some v := by
  intro page
  induction page with
  | nil =>
    intro c k v h
    exact h
  | cons m rest ihp =>
    intro c k v h
    have hstep : collGet (collSet c m.1 m) k = some v := by
      unfold collSet
      split
      · exact h
      · unfold collGet at h ⊢
        rw [List.find?_append]
        rcases hf : c.find? (fun e => e.1 == k) with _ | e
        · rw [hf] at h
          cases h
        · rw [hf] at h ⊢
          rw [Option.or_some]
          exact h
    exact ihp (collSet c m.1 m) k v hstep

/-- C8.  For every execution of the pagination loop: every member of a fetched
page is in the cache-write log by the time that page is merged into the
returned mapping, and the merge is first-write-wins per member id — an entry
set by an earlier page is never overwritten by a later page's entry for the
same id.  (The `Collection` semantics are modelled from the spec, since
`util/collection.ts` is outside the excerpt.) -/
theorem getMembers_cache_then_first_write_wins (oracle : Oracle) (target left : Nat)
    (after : Option Nat) (cache : List Member) (coll : Collection) :
    (∀ it ∈ (go oracle target left after cache coll).1, ∀ m ∈ it.page, m ∈ it.cacheAtMerge)
    ∧ (∀ (page : List Member) (c : Collection) (k : Nat) (v : Member),
        collGet c k = some v → collGet (mergePage c page) k = some v) :=
  ⟨go_cache_before_merge oracle target left after cache coll, collGet_mergePage⟩

/-- Witness for C8: id `7` is first written with payload tag `1`; a later page
carrying id `7` with tag `2` leaves the entry untouched while id `8` is
appended. -/
theorem getMembers_cache_then_first_write_wins_witness :
    collGet [(7, (7, 1))] 7 = some (7, 1)
    ∧ collGet (mergePage [(7, (7, 1))] [(7, 2), (8, 0)]) 7 = some (7, 1) :=
  ⟨by decide,
    (getMembers_cache_then_first_write_wins (fun _ _ => []) 0 0 none [] []).2
      [(7, 2), (8, 0)] [(7, (7, 1))] 7 (7, 1) (by decide)⟩

/-- In a `≤`-sorted non-empty list of ids, the last element is a maximum. -/
theorem sorted_getLast_le :
    ∀ (l : List Nat) (h : l ≠ []), l.Pairwise (fun x y => x ≤ y) →
      ∀ x ∈ l, x ≤ l.getLast h := by
  intro l
  induction l with
  | nil => intro h; exact absurd rfl h
  | cons a t iht =>
    intro h hp x hx
    cases t with
    | nil =>
      rw [List.mem_singleton] at hx
      subst hx
      exact Nat.le_refl _
    | cons b t2 =>
      have hne : (b :: t2) ≠ [] := List.cons_ne_nil b t2
      rw [List.getLast_cons hne]
      rcases List.mem_cons.mp hx with h0 | h1
      · subst h0
        exact (List.pairwise_cons.mp hp).1 _ (List.getLast_mem hne)
      · exact iht hne (List.pairwise_cons.mp hp).2 x h1

/-- Cursor propagation through the pagination loop: the first request carries
the initial cursor, and each later request's cursor is the highest id of the
previous page (the loop takes the last returned member, which is the highest
when pages are id-sorted). -/
theorem go_cursor (oracle : Oracle) (target : Nat)
    (hs : ∀ l a, (idsOf (oracle l a)).Pairwise (fun x y => x ≤ y)) :
    ∀ (left : Nat) (after : Option Nat) (cache : List Member) (coll : Collection),
      (∀ it, ((go oracle target left after cache coll).1).head? = some it →
          it.req.after = after)
      ∧ List.Chain' (fun a b => followsMaxB a b = true)
          (go oracle target left after cache coll).1 := by
  intro left
  induction left using Nat.strong_induction_on with
  | _ left ih =>
    intro after cache coll
    by_cases hg : collSize coll < target ∧ 0 < left
    · rcases hp : oracle (pageLimit left) after with _ | ⟨m, rest⟩
      · rw [go_page_empty oracle target left after cache coll hg hp]
        refine ⟨?_, List.chain'_singleton _⟩
        intro it hh
        simp only [List.head?_cons, Option.some.injEq] at hh
        subst hh
        rfl
      · rw [go_page_cons oracle target left after cache coll hg.1 hg.2
            (m :: rest) hp (List.cons_ne_nil m rest)]
        obtain ⟨ihh, ihc⟩ := ih (left - 1000) (Nat.sub_lt hg.2 (by decide))
          (some (((m :: rest).getLast (List.cons_ne_nil m rest)).1))
          (cache ++ (m :: rest)) (mergePage coll (m :: rest))
        refine ⟨?_, ?_⟩
        · intro it hh
          simp only [List.head?_cons, Option.some.injEq] at hh
          subst hh
          rfl
        · rw [List.chain'_cons']
          refine ⟨?_, ihc⟩
          intro y hy
          have hA : y.req.after = some (((m :: rest).getLast (List.cons_ne_nil m rest)).1) :=
            ihh y (Option.mem_def.mp hy)
          have hne2 : idsOf (m :: rest) ≠ [] := by simp [idsOf]
          have hpw : (idsOf (m :: rest)).Pairwise (fun x y => x ≤ y) := by
            have := hs (pageLimit left) after
            rw [hp] at this
            exact this
          have hgl : (idsOf (m :: rest)).getLast hne2
              = ((m :: rest).getLast (List.cons_ne_nil m rest)).1 := by
            unfold idsOf
            rw [List.getLast_map]
          have hmem : ((m :: rest).getLast (List.cons_ne_nil m rest)).1 ∈ idsOf (m :: rest) := by
            rw [← hgl]
            exact List.getLast_mem hne2
          have hmax : ∀ x ∈ idsOf (m :: rest),
              x ≤ ((m :: rest).getLast (List.cons_ne_nil m rest)).1 := by
            intro x hx
            rw [← hgl]
            exact sorted_getLast_le _ hne2 hpw x hx
          unfold followsMaxB
          rw [hA]
          rw [Bool.and_eq_true]
          constructor
          · exact List.elem_eq_true_of_mem hmem
          · rw [List.all_eq_true]
            intro x hx
            exact decide_eq_true (hmax x hx)
    · rw [go_stop oracle target left after cache coll hg]
      exact ⟨(fun it hh => nomatch hh), List.chain'_nil⟩

/-- C6.  For every execution of the REST fallback `getMembers` against a
collaborator whose pages are id-sorted (as the paginated endpoint guarantees)
and with no caller-supplied `after` cursor: the first page request carries no
cursor, and every later request's cursor equals the id of the highest-id
member of the previous page. -/
theorem getMembers_after_cursor (intents : Nat) (g : Guild)
    (options : Option GetMemberOptions) (oracle : Oracle)
    (tr : List Iter) (out : Except Errors Collection)
    (hs : ∀ l a, (idsOf (oracle l a)).Pairwise (fun x y => x ≤ y))
    (hafter : options.bind GetMemberOptions.after = none)
    (h : getMembers intents (some g) options oracle = (tr, out)) :
    (∀ it, tr.head? = some it → it.req.after = none)
    ∧ List.Chain' (fun a b => followsMaxB a b = true) tr := by
  unfold getMembers at h
  by_cases hi : (jsAnd intents Intents.GUILD_MEMBERS == 0) = true
  · rw [if_pos hi] at h
    have h1 : tr = [] := by
      have := congrArg Prod.fst h
      simpa using this.symm
    subst h1
    exact ⟨(fun it hh => nomatch hh), List.chain'_nil⟩
  · rw [if_neg hi, hafter] at h
    have h1 : (go oracle ((options.bind GetMemberOptions.limit).getD g.memberCount)
        ((options.bind GetMemberOptions.limit).getD g.memberCount) none [] []).1 = tr := by
      have := congrArg Prod.fst h
      simpa using this
    rw [← h1]
    exact go_cursor oracle _ hs _ none [] []

/-- Witness for C6: a run against a collaborator that returns an empty page
(trivially id-sorted), with no caller-supplied cursor. -/
theorem getMembers_after_cursor_witness :
    (∀ (l : Nat) (a : Option Nat),
        (idsOf (((fun _ _ => []) : Oracle) l a)).Pairwise (fun x y => x ≤ y))
    ∧ (none : Option GetMemberOptions).bind GetMemberOptions.after = none
    ∧ getMembers 1 (some ⟨3⟩) none (fun _ _ => [])
        = ([⟨⟨3, none⟩, [], 0, 3, []⟩], .ok [])
    ∧ ((∀ it, ([(⟨⟨3, none⟩, [], 0, 3, []⟩ : Iter)]).head? = some it → it.req.after = none)
        ∧ List.Chain' (fun a b => followsMaxB a b = true) [⟨⟨3, none⟩, [], 0, 3, []⟩]) :=
  have hs : ∀ (l : Nat) (a : Option Nat),
      (idsOf (((fun _ _ => []) : Oracle) l a)).Pairwise (fun x y => x ≤ y) :=
    fun _ _ => List.Pairwise.nil
  have e : getMembers 1 (some ⟨3⟩) none (fun _ _ => [])
      = ([⟨⟨3, none⟩, [], 0, 3, []⟩], .ok []) := by
    have eg : go (fun _ _ => []) 3 3 none [] [] = ([⟨⟨3, none⟩, [], 0, 3, []⟩], [], 3) :=
      go_page_empty (fun _ _ => []) 3 3 none [] [] ⟨by decide, by decide⟩ rfl
    show ((go (fun _ _ => []) 3 3 none [] []).1,
        Except.ok (go (fun _ _ => []) 3 3 none [] []).2.1)
      = ([⟨⟨3, none⟩, [], 0, 3, []⟩], .ok [])
    rw [eg]
  ⟨hs, rfl, e, getMembers_after_cursor 1 ⟨3⟩ none (fun _ _ => []) _ _ hs rfl e⟩

/-- A full page is never empty. -/
theorem pageOf_ne_nil (c l : Nat) (hl : l ≠ 0) : pageOf c l ≠ [] := by
  simp [pageOf, hl]

/-- The last member of a full page carries the highest id, `c + l`. -/
theorem pageOf_getLast_fst (c l : Nat) (h : pageOf c l ≠ []) :
    ((pageOf c l).getLast h).1 = c + l := by
  unfold pageOf at h ⊢
  simp only [List.getLast_map, List.getLast_range']
  omega

/-- The size of a range collection. -/
theorem collSize_rangeColl (s n : Nat) : collSize (rangeColl s n) = n := by
  unfold collSize rangeColl
  rw [List.length_map, List.length_range']

/-- `hasKey` over an append distributes as a boolean or. -/
theorem hasKey_append (c1 c2 : Collection) (k : Nat) :
    hasKey (c1 ++ c2) k = (hasKey c1 k || hasKey c2 k) := by
  unfold hasKey
  exact List.any_append

/-- A key outside the id interval of a range collection is absent. -/
theorem hasKey_rangeColl_false (s n k : Nat) (hk : ¬(s ≤ k ∧ k < s + n)) :
    hasKey (rangeColl s n) k = false := by
  unfold hasKey rangeColl
  rw [List.any_eq_false]
  intro x hx
  obtain ⟨i, hi, rfl⟩ := List.mem_map.mp hx
  intro hbeq
  rw [beq_iff_eq] at hbeq
  subst hbeq
  rw [List.mem_range'_1] at hi
  exact hk hi

/-- Merging a page of entirely fresh, pairwise-distinct ids appends its
entries in page order. -/
theorem mergePage_fresh :
    ∀ (page : List Member) (coll : Collection),
      (∀ m ∈ page, hasKey coll m.1 = false) → (idsOf page).Nodup →
      mergePage coll page = coll ++ page.map (fun m => (m.1, m)) := by
  intro page
  induction page with
  | nil =>
    intro coll _ _
    simp [mergePage]
  | cons m rest ihp =>
    intro coll hf hn
    have h1 : hasKey coll m.1 = false := hf m (List.mem_cons_self m rest)
    have e1 : mergePage coll (m :: rest) = mergePage (coll ++ [(m.1, m)]) rest := by
      unfold mergePage
      rw [List.foldl_cons]
      unfold collSet
      rw [h1]
      simp
    have hn2 : (idsOf (m :: rest)) = m.1 :: idsOf rest := by
      unfold idsOf
      rw [List.map_cons]
    rw [hn2] at hn
    rw [e1, ihp]
    · simp
    · intro m2 hm2
      rw [hasKey_append, hf m2 (List.mem_cons_of_mem m hm2), Bool.false_or]
      unfold hasKey
      simp only [List.any_cons, List.any_nil, Bool.or_false]
      rw [beq_eq_false_iff_ne]
      intro hEq
      have : m2.1 ∈ idsOf rest := List.mem_map_of_mem Prod.fst hm2
      rw [← hEq] at this
      exact (List.nodup_cons.mp hn).1 this
    · exact (List.nodup_cons.mp hn).2

/-- Merging the next full page onto the mapping accumulated so far extends the
id range. -/
theorem merge_seq (c l : Nat) :
    mergePage (rangeColl 1 c) (pageOf c l) = rangeColl 1 (c + l) := by
  rw [mergePage_fresh]
  · unfold rangeColl pageOf
    rw [List.map_map]
    have hfun : ((fun m => ((m.1 : Nat), m)) ∘ (fun i => ((i, 0) : Member)))
        = (fun i => (i, (i, 0))) := rfl
    rw [hfun, ← List.map_append]
    rw [show c + 1 = 1 + c from Nat.add_comm c 1]
    rw [List.range'_append_1]
    rw [Nat.add_comm l c]
  · intro m hm
    obtain ⟨i, hi, rfl⟩ := List.mem_map.mp hm
    apply hasKey_rangeColl_false
    rw [List.mem_range'_1] at hi
    omega
  · unfold idsOf pageOf
    rw [List.map_map]
    have hfun2 : (Prod.fst ∘ fun i => ((i, 0) : Member)) = (fun i => i) := rfl
    rw [hfun2, List.map_id']
    exact List.nodup_range' (c + 1) l

/-- C7.  Against a guild with 2500 known members, no caller options, and a
collaborator that answers every request in full with ascending ids, the REST
fallback issues exactly three page requests, of sizes 1000, 1000 and 500 in
that order, and stops after the third (non-full) page without ever receiving
an empty page. -/
theorem getMembers_2500_trace :
    ((getMembers 1 (some ⟨2500⟩) none seqOracle).1.map (fun it => it.req.limit)
        = [1000, 1000, 500])
    ∧ (∀ it ∈ (getMembers 1 (some ⟨2500⟩) none seqOracle).1, it.page ≠ []) := by
  have hne1 : pageOf 0 1000 ≠ [] := pageOf_ne_nil 0 1000 (by decide)
  have hne2 : pageOf 1000 1000 ≠ [] := pageOf_ne_nil 1000 1000 (by decide)
  have hne3 : pageOf 2000 500 ≠ [] := pageOf_ne_nil 2000 500 (by decide)
  have s1 : go seqOracle 2500 2500 none [] []
      = (⟨⟨pageLimit 2500, none⟩, pageOf 0 1000, 0, 2500, [] ++ pageOf 0 1000⟩ ::
            (go seqOracle 2500 1500 (some 1000) ([] ++ pageOf 0 1000) (rangeColl 1 1000)).1,
          (go seqOracle 2500 1500 (some 1000) ([] ++ pageOf 0 1000) (rangeColl 1 1000)).2) := by
    rw [go_page_cons seqOracle 2500 2500 none [] [] (by decide) (by decide)
      (pageOf 0 1000) rfl hne1]
    rw [pageOf_getLast_fst 0 1000 hne1]
    rw [show mergePage [] (pageOf 0 1000) = rangeColl 1 1000 from merge_seq 0 1000]
    norm_num [collSize]
  have s2 : ∀ cache, go seqOracle 2500 1500 (some 1000) cache (rangeColl 1 1000)
      = (⟨⟨pageLimit 1500, some 1000⟩, pageOf 1000 1000, 1000, 1500,
            cache ++ pageOf 1000 1000⟩ ::
            (go seqOracle 2500 500 (some 2000) (cache ++ pageOf 1000 1000)
              (rangeColl 1 2000)).1,
          (go seqOracle 2500 500 (some 2000) (cache ++ pageOf 1000 1000)
              (rangeColl 1 2000)).2) := by
    intro cache
    rw [go_page_cons seqOracle 2500 1500 (some 1000) cache (rangeColl 1 1000)
      (by rw [collSize_rangeColl]; decide) (by decide) (pageOf 1000 1000) rfl hne2]
    rw [pageOf_getLast_fst 1000 1000 hne2]
    rw [show mergePage (rangeColl 1 1000) (pageOf 1000 1000) = rangeColl 1 2000 from
      merge_seq 1000 1000]
    rw [collSize_rangeColl]
  have s3 : ∀ cache, go seqOracle 2500 500 (some 2000) cache (rangeColl 1 2000)
      = ([⟨⟨pageLimit 500, some 2000⟩, pageOf 2000 500, 2000, 500,
            cache ++ pageOf 2000 500⟩],
          rangeColl 1 2500, 0) := by
    intro cache
    rw [go_page_cons seqOracle 2500 500 (some 2000) cache (rangeColl 1 2000)
      (by rw [collSize_rangeColl]; decide) (by decide) (pageOf 2000 500) rfl hne3]
    rw [pageOf_getLast_fst 2000 500 hne3]
    rw [show mergePage (rangeColl 1 2000) (pageOf 2000 500) = rangeColl 1 2500 from
      merge_seq 2000 500]
    rw [collSize_rangeColl]
    norm_num
    rw [go_stop seqOracle 2500 0 (some 2500) (cache ++ pageOf 2000 500) (rangeColl 1 2500)
      (by intro hc; exact absurd hc.2 (by decide))]
    exact ⟨rfl, rfl⟩
  have e0 : getMembers 1 (some ⟨2500⟩) none seqOracle
      = ((go seqOracle 2500 2500 none [] []).1,
          .ok (go seqOracle 2500 2500 none [] []).2.1) := by
    unfold getMembers
    rw [if_neg (by decide : ¬((jsAnd 1 Intents.GUILD_MEMBERS == 0) = true))]
    simp only [Option.none_bind, Option.getD_none]
  rw [e0]
  show ((go seqOracle 2500 2500 none [] []).1.map (fun it => it.req.limit)
        = [1000, 1000, 500])
    ∧ (∀ it ∈ (go seqOracle 2500 2500 none [] []).1, it.page ≠ [])
  rw [s1, s2, s3]
  refine ⟨rfl, ?_⟩
  intro it hit
  rcases List.mem_cons.mp hit with h | hit
  · subst h
    exact hne1
  rcases List.mem_cons.mp hit with h | hit
  · subst h
    exact hne2
  rcases List.mem_cons.mp hit with h | hit
  · subst h
    exact hne3
  cases hit

/-- C1.  The claim says a call whose effective limit is `0` or `> 1` throws
`MissingIntentError` whenever the granted intents value lacks the
`GUILD_MEMBERS` bit.  The code instead evaluates
`identifyPayload.intents && Intents.GUILD_MEMBERS` with the logical `&&`
rather than the bitwise `&`, so the check only fails when the intents value is
exactly `0`: with `intents = 1` (bit `2` absent, effective limit `0` = entire
guild, since no options are passed) the call does not throw and proceeds to
`requestAllMembers` with the unmodified options. -/
theorem fetchMembers_intent_bit_ignored :
    1 &&& Intents.GUILD_MEMBERS = 0 ∧ limitGuard none = true ∧
      fetchMembers 1 none = .ok none := by
  decide

/-- C2.  Whenever `fetchMembers` reaches `requestAllMembers` (an `.ok` result)
and the supplied `userIDs` list is non-empty of length `k`, the options handed
to `requestAllMembers` carry `limit = k`, whatever limit the caller supplied:
the override `options.limit = options.userIDs.length` is unconditional for a
non-empty list. -/
theorem fetchMembers_userIDs_override (intents : Nat) (o : FetchMembersOptions)
    (r : Option FetchMembersOptions) (hne : o.userIDs ≠ [])
    (h : fetchMembers intents (some o) = .ok r) :
    ∃ o2, r = some o2 ∧ o2.limit = some o.userIDs.length ∧ o2.userIDs = o.userIDs := by
  unfold fetchMembers at h
  by_cases hg : (limitGuard (some o) && (jsAnd intents Intents.GUILD_MEMBERS == 0)) = true
  · simp [hg] at h
  · rw [Bool.not_eq_true] at hg
    rw [hg] at h
    simp only [Bool.false_eq_true, if_false, Except.ok.injEq] at h
    refine ⟨⟨some o.userIDs.length, o.userIDs, o.query⟩, ?_, rfl, rfl⟩
    rw [← h]
    have hlen : o.userIDs.length ≠ 0 := by
      intro h0
      exact hne (List.length_eq_zero.mp h0)
    simp [normalizeOptions, hlen]

/-- Witness for C2: with `limit = 1` supplied (so the intent check passes even
with zero intents) and two user ids, the dispatched options carry `limit = 2`. -/
theorem fetchMembers_userIDs_override_witness :
    ([7, 8] : List Nat) ≠ [] ∧
      fetchMembers 0 (some ⟨some 1, [7, 8], none⟩) = .ok (some ⟨some 2, [7, 8], none⟩) ∧
      ∃ o2, (some (⟨some 2, [7, 8], none⟩ : FetchMembersOptions)) = some o2 ∧
        o2.limit = some (FetchMembersOptions.userIDs ⟨some 1, [7, 8], none⟩).length ∧
        o2.userIDs = FetchMembersOptions.userIDs ⟨some 1, [7, 8], none⟩ :=
  ⟨by decide, by decide,
    fetchMembers_userIDs_override 0 ⟨some 1, [7, 8], none⟩ _ (by decide) (by decide)⟩

/-- C3, counterexample.  The claim says intent validation succeeds for every
intents value whenever the effective limit is `1`, including when a
single-element `userIDs` list forces it to `1`.  But the guard runs before the
`userIDs` override and looks only at the caller-supplied `limit`: with
`intents = 0`, no caller limit and a one-element `userIDs` list, the call
throws `MISSING_INTENT_GUILD_MEMBERS` even though the effective limit is `1`. -/
theorem fetchMembers_single_userID_rejected :
    (FetchMembersOptions.userIDs ⟨none, [42], none⟩).length = 1 ∧
      fetchMembers 0 (some ⟨none, [42], none⟩) = .error .MISSING_INTENT_GUILD_MEMBERS := by
  decide

/-- C3, amended.  A call whose caller-supplied `limit` is exactly `1` passes
the intent validation and never throws `MissingIntentError`, for every granted
intents value including zero.  (When the effective limit only becomes `1`
through the `userIDs` override, a zero intents value still throws, as the
counterexample shows.) -/
theorem fetchMembers_limit_one_authorized (intents : Nat) (o : FetchMembersOptions)
    (h : o.limit = some 1) :
    fetchMembers intents (some o) = .ok (normalizeOptions (some o)) := by
  unfold fetchMembers
  have hg : limitGuard (some o) = false := by
    simp [limitGuard, jsLimit, h]
  rw [hg]
  simp

/-- Witness for C3's amended theorem at `intents = 0`, `limit = some 1`. -/
theorem fetchMembers_limit_one_authorized_witness :
    (FetchMembersOptions.limit ⟨some 1, [], none⟩ = some 1) ∧
      fetchMembers 0 (some ⟨some 1, [], none⟩) =
        .ok (normalizeOptions (some ⟨some 1, [], none⟩)) :=
  ⟨rfl, fetchMembers_limit_one_authorized 0 ⟨some 1, [], none⟩ rfl⟩

/-- C4, counterexample.  The claim says a `force` flag in the options lets
`getMembers` proceed when the guild is not cached.  The body of `getMembers`
never reads a `force` flag: with nonzero intents, an uncached guild and
`force = true` it still throws `GUILD_NOT_FOUND` (unlike `getMember`, lines
280-296, which does honour `force`). -/
theorem getMembers_force_ignored :
    getMembers 1 none (some ⟨none, none, true⟩) (fun _ _ => []) =
      ([], .error .GUILD_NOT_FOUND) := by
  rfl

/-- C4, amended.  When the intent check passes (nonzero intents value) and the
guild is absent from the cache, `getMembers` fails with `GUILD_NOT_FOUND`
regardless of the options — there is no `force` escape hatch — and no page
request is issued. -/
theorem getMembers_guild_not_found (intents : Nat) (options : Option GetMemberOptions)
    (oracle : Oracle) (h : intents ≠ 0) :
    getMembers intents none options oracle = ([], .error .GUILD_NOT_FOUND) := by
  unfold getMembers
  have : jsAnd intents Intents.GUILD_MEMBERS = 2 := by
    simp [jsAnd, h, Intents.GUILD_MEMBERS]
  simp [this]

/-- Witness for C4's amended theorem: intents `1`, options carrying
`force = true`. -/
theorem getMembers_guild_not_found_witness :
    (1 : Nat) ≠ 0 ∧
      getMembers 1 none (some ⟨none, none, true⟩) (fun _ _ => []) =
        ([], .error .GUILD_NOT_FOUND) :=
  ⟨by decide, getMembers_guild_not_found 1 (some ⟨none, none, true⟩) (fun _ _ => []) (by decide)⟩

/-- C9.  The REST fallback performs its own intent check before touching the
cache or the REST transport: with a zero intents value, `getMembers` throws
`MISSING_INTENT_GUILD_MEMBERS` for every guild, every options object
(including an effective limit of `1`) and every REST collaborator, and its
iteration log is empty — no page request is ever issued. -/
theorem getMembers_zero_intents_rejects (guild : Option Guild)
    (options : Option GetMemberOptions) (oracle : Oracle) :
    getMembers 0 guild options oracle = ([], .error .MISSING_INTENT_GUILD_MEMBERS) := by
  rfl

/-- C10.  `getMembersByQuery` on a guild id absent from the guilds cache
returns `undefined` (`.ok none`): no `GUILD_NOT_FOUND` error is surfaced and
`requestAllMembers` is never reached. -/
theorem getMembersByQuery_unknown_guild (name : String) (limit : Nat) :
    getMembersByQuery none name limit = .ok none := by
  rfl

end Discordeno
